import Mathlib

/-!
Shallow embedding of the `cooccurringNetwork` package
(`src/cooccurringNetwork/__init__.py`) and proofs about its behaviour.

Modelling conventions:
* `pd.Timestamp` and `pd.Timedelta` are embedded as `Int` (timestamps support
  subtraction producing a duration and total ordering; nothing else is used).
* `Event.attributes` is an uninterpreted open dictionary that the code never
  reads or compares before another field differs; it is omitted from the
  record.
* Python dicts preserve insertion order; they are embedded as association
  lists built in insertion order (`groupBy`).
* `deque.popleft()` is `List.tail`; the scan never calls it on an empty
  queue (each inner iteration pops at most once per snapshot element, and the
  snapshot has exactly the queue's length), so totalising it with
  `List.tail [] = []` does not change any reachable behaviour.
* Python's stable `list.sort()` is embedded as a stable insertion sort over
  the same total comparison; since the comparison inspects every field, tied
  elements are equal and any stable comparison sort produces this output.
-/

structure Event where
  Index : Int
  entity : String
  time : Int
  location : Option String
deriving DecidableEq, Repr

structure Cooccurrence where
  event : Event
  other_event : Event
  timedelta : Int
  time : Int
deriving DecidableEq, Repr

/-- Insertion-ordered grouping, as performed by the `dict`-building loops at
the top of `get_cooccurrences` (key `event.location`) and of
`divide_cooccurrences` (key `tuple(sorted([entity, entity]))`): a new key is
appended at the end, an existing key has the element appended to its list. -/
def addToGroups {α κ : Type} [DecidableEq κ] (key : α → κ)
    (gs : List (κ × List α)) (a : α) : List (κ × List α) :=
  if key a ∈ gs.map Prod.fst then
    gs.map (fun g => if g.1 = key a then (g.1, g.2 ++ [a]) else g)
  else gs ++ [(key a, [a])]

def groupBy {α κ : Type} [DecidableEq κ] (key : α → κ) (l : List α) :
    List (κ × List α) :=
  l.foldl (addToGroups key) []

/-- `events_per_location` of `get_cooccurrences` (lines 46-50). -/
def groupByLocation (events : List Event) : List (Option String × List Event) :=
  groupBy Event.location events

/-- Body of `for other_event in queue.copy():` (lines 59-66).  The state is
the live queue paired with the output list; the iteration runs over a
snapshot of the queue, while `queue.popleft()` mutates the live queue. -/
def scanStep (max_timedelta : Int) (event : Event)
    (st : List Event × List Cooccurrence) (other_event : Event) :
    List Event × List Cooccurrence :=
  if event.entity ≠ other_event.entity then
    let timedelta := event.time - other_event.time
    if timedelta < max_timedelta then
      (st.1, st.2 ++ [⟨event, other_event, timedelta, event.time⟩])
    else (st.1.tail, st.2)
  else st

/-- One iteration of `for event in events:` (lines 57-67): scan a snapshot of
the queue, then append the event to the queue. -/
def processEvent (max_timedelta : Int)
    (st : List Event × List Cooccurrence) (event : Event) :
    List Event × List Cooccurrence :=
  let st' := st.1.foldl (scanStep max_timedelta event) st
  (st'.1 ++ [event], st'.2)

/-- `get_cooccurrences` (lines 40-68).  Note that `queue` is created once,
before the `for location, events in ...` loop, so the same queue and output
list are threaded through every location group. -/
def get_cooccurrences (max_timedelta : Int) (events : List Event) :
    List Cooccurrence :=
  ((groupByLocation events).foldl
      (fun st g => g.2.foldl (processEvent max_timedelta) st) ([], [])).2

/-- Python string `<`: lexicographic by code point, shorter strict prefix
first. -/
def strLtGo : List Char → List Char → Bool
  | [], [] => false
  | [], _ :: _ => true
  | _ :: _, [] => false
  | a :: s, b :: t => if a = b then strLtGo s t else decide (a < b)

def strLt (s t : String) : Bool := strLtGo s.data t.data

def strLe (s t : String) : Bool := strLt s t || s == t

/-- `tuple(sorted([cooccurrence.event.entity, cooccurrence.other_event.entity]))`
(lines 84-85): the unordered entity pair, canonicalised lexicographically. -/
def pairKey (c : Cooccurrence) : String × String :=
  if strLe c.event.entity c.other_event.entity then
    (c.event.entity, c.other_event.entity)
  else (c.other_event.entity, c.event.entity)

/-- `None` sorts below any string here; Python would raise comparing `None`
to `str`, but this branch is reached only for events agreeing on `Index`,
`entity` and `time` while differing in `location` kind. -/
def optStrLt : Option String → Option String → Bool
  | none, none => false
  | none, some _ => true
  | some _, none => false
  | some s, some t => strLt s t

/-- Python `NamedTuple` comparison of two `Event`s: lexicographic over the
field tuple `(Index, entity, time, location)`. -/
def eventLe (a b : Event) : Bool :=
  if a.Index ≠ b.Index then decide (a.Index < b.Index)
  else if a.entity ≠ b.entity then strLt a.entity b.entity
  else if a.time ≠ b.time then decide (a.time < b.time)
  else if a.location ≠ b.location then optStrLt a.location b.location
  else true

/-- Python `NamedTuple` comparison of two `Cooccurrence`s: lexicographic over
`(event, other_event, timedelta, time)` — the primary key is the `event`
field (hence `event.Index`), not `time`. -/
def coocLe (a b : Cooccurrence) : Bool :=
  if a.event ≠ b.event then eventLe a.event b.event
  else if a.other_event ≠ b.other_event then eventLe a.other_event b.other_event
  else if a.timedelta ≠ b.timedelta then decide (a.timedelta < b.timedelta)
  else decide (a.time ≤ b.time)

def insertSorted {α : Type} (le : α → α → Bool) (a : α) : List α → List α
  | [] => [a]
  | b :: l => if le a b then a :: b :: l else b :: insertSorted le a l

/-- Stable comparison sort; extensionally `list.sort()` for the total
comparison functions used here. -/
def sortBy {α : Type} (le : α → α → Bool) : List α → List α
  | [] => []
  | a :: l => insertSorted le a (sortBy le l)

/-- Default only feeds `headD`/`getLastD` below; the groups built by
`groupBy` are never empty, so it is never read (Python indexes `[0]` and
`[-1]` directly). -/
def dummyCooccurrence : Cooccurrence := ⟨⟨0, "", 0, none⟩, ⟨0, "", 0, none⟩, 0, 0⟩

/-- One iteration of the second loop of `divide_cooccurrences` (lines 92-98):
sort the group in place, then extend `systematic` with it when
`sorted[-1].time - sorted[0].time > min_timedelta`, else extend `random`. -/
def divideStep (min_timedelta : Int)
    (sr : List Cooccurrence × List Cooccurrence)
    (g : (String × String) × List Cooccurrence) :
    List Cooccurrence × List Cooccurrence :=
  let sorted := sortBy coocLe g.2
  if min_timedelta < (sorted.getLastD dummyCooccurrence).time -
      (sorted.headD dummyCooccurrence).time then
    (sr.1 ++ sorted, sr.2)
  else (sr.1, sr.2 ++ sorted)

/-- `divide_cooccurrences` (lines 70-99): group by unordered entity pair,
then split group by group. -/
def divide_cooccurrences (min_timedelta : Int)
    (cooccurrences : List Cooccurrence) :
    List Cooccurrence × List Cooccurrence :=
  (groupBy pairKey cooccurrences).foldl (divideStep min_timedelta) ([], [])

/-- `cooccurrences[-1]` on an empty list raises `IndexError` in
`create_graph`; the spec names this failure `EmptyInput`. -/
inductive CreateGraphError
  | EmptyInput
deriving DecidableEq, Repr

/-- `nx.Graph`: nodes carry a `time` attribute, undirected edges carry an
integer `weight`, and the graph object carries the two graph-level keys that
`create_graph` touches: `final_date` (set at construction) and `finalDate`
(set after the fold). -/
structure Graph where
  nodes : List (String × Int)
  edges : List ((String × String) × Nat)
  final_date : Option Int
  finalDate : Option Int
deriving DecidableEq, Repr

/-- `graph.add_node(u, time=t)`: inserts the node or overwrites its `time`
attribute (last-write-wins). -/
def Graph.addNode (g : Graph) (u : String) (t : Int) : Graph :=
  if u ∈ g.nodes.map Prod.fst then
    { g with nodes := g.nodes.map (fun p => if p.1 = u then (p.1, t) else p) }
  else { g with nodes := g.nodes ++ [(u, t)] }

/-- `graph.has_edge(u, v)`: undirected membership. -/
def Graph.hasEdge (g : Graph) (u v : String) : Bool :=
  g.edges.any (fun e => (e.1.1 == u && e.1.2 == v) || (e.1.1 == v && e.1.2 == u))

/-- `add_edge` (lines 101-104): weight 1 on first insertion, incremented on
every repeat of the same unordered pair. -/
def add_edge (g : Graph) (u v : String) : Graph :=
  if ¬ g.hasEdge u v then { g with edges := g.edges ++ [((u, v), 1)] }
  else { g with edges := g.edges.map (fun e =>
    if (e.1.1 = u ∧ e.1.2 = v) ∨ (e.1.1 = v ∧ e.1.2 = u) then (e.1, e.2 + 1)
    else e) }

/-- `create_graph` (lines 106-116): `nx.Graph(None, final_date=None)` sets
graph attribute `final_date`; the fold adds nodes and edges; afterwards the
*differently named* graph attribute `finalDate` is set to
`cooccurrences[-1].time`, which raises on an empty list. -/
def graphStep (g : Graph) (c : Cooccurrence) : Graph :=
  add_edge ((g.addNode c.event.entity c.event.time).addNode
      c.other_event.entity c.other_event.time)
    c.event.entity c.other_event.entity

def create_graph (cooccurrences : List Cooccurrence) :
    Except CreateGraphError Graph :=
  let graph : Graph := ⟨[], [], none, none⟩
  let graph := cooccurrences.foldl graphStep graph
  match cooccurrences.getLast? with
  | none => .error .EmptyInput
  | some c => .ok { graph with finalDate := some c.time }

/-! ### Abstractions of the scan, used in the proofs below

`scanStep` threads a queue and an output list through one snapshot
iteration.  The queue evolution and the emissions decompose into independent
computations on the snapshot: pops drop as many front elements as there are
snapshot elements from a different entity that are at least `max_timedelta`
old (`trig`), and each snapshot element from a different entity that is
strictly closer than `max_timedelta` contributes one record (`emitF`). -/

/-- Does iterating `other_event` pop the front of the queue?  (lines 60-66:
different entity, and `timedelta < max_timedelta` fails.) -/
def trig (m : Int) (e o : Event) : Bool :=
  decide (e.entity ≠ o.entity) && decide (m ≤ e.time - o.time)

/-- The record emitted for snapshot element `o`, if any (lines 60-65). -/
def emitF (m : Int) (e o : Event) : Option Cooccurrence :=
  if e.entity ≠ o.entity ∧ e.time - o.time < m then
    some ⟨e, o, e.time - o.time, e.time⟩
  else none

/-- Queue after one `processEvent`: pops from the front, then append. -/
def stepQueue (m : Int) (q : List Event) (e : Event) : List Event :=
  q.drop (q.countP (trig m e)) ++ [e]

/-- Queue after scanning a list of events. -/
def queueRun (m : Int) (q : List Event) : List Event → List Event
  | [] => q
  | e :: l => queueRun m (stepQueue m q e) l

/-- All records emitted while scanning a list of events from queue `q`. -/
def emitsAll (m : Int) (q : List Event) : List Event → List Cooccurrence
  | [] => []
  | e :: l => q.filterMap (emitF m e) ++ emitsAll m (stepQueue m q e) l

/-- The single processing order of the whole scan: the location groups in
first-encounter order, concatenated (the shared queue walks through this
flattened sequence). -/
def flatEvents (events : List Event) : List Event :=
  ((groupByLocation events).map Prod.snd).flatten

abbrev timeLE (a b : Event) : Prop := a.time ≤ b.time

/-- The flattened processing order is chronological.  This holds in
particular when all events share one location group and are given in
chronological order. -/
def ChronFlat (events : List Event) : Prop :=
  List.Pairwise timeLE (flatEvents events)

/-- The span `divide_cooccurrences` computes for a group:
`sorted[-1].time - sorted[0].time` after the tuple-order sort. -/
def spanOf (g : (String × String) × List Cooccurrence) : Int :=
  ((sortBy coocLe g.2).getLastD dummyCooccurrence).time -
    ((sortBy coocLe g.2).headD dummyCooccurrence).time

/-- The `systematic` output of `divide_cooccurrences`, group by group. -/
def sysPart (m : Int) : List ((String × String) × List Cooccurrence) →
    List Cooccurrence
  | [] => []
  | g :: gs => (if m < spanOf g then sortBy coocLe g.2 else []) ++ sysPart m gs

/-- The `random` output of `divide_cooccurrences`, group by group. -/
def randPart (m : Int) : List ((String × String) × List Cooccurrence) →
    List Cooccurrence
  | [] => []
  | g :: gs => (if m < spanOf g then [] else sortBy coocLe g.2) ++ randPart m gs

/-! ### The scan decomposes into `queueRun` and `emitsAll` -/

lemma foldl_scanStep_eq (m : Int) (e : Event) :
    ∀ (snap q : List Event) (out : List Cooccurrence),
      snap.foldl (scanStep m e) (q, out) =
        (q.drop (snap.countP (trig m e)), out ++ snap.filterMap (emitF m e)) := by
  intro snap
  induction snap with
  | nil => intro q out; simp
  | cons o snap ih =>
    intro q out
    rw [List.foldl_cons]
    by_cases hent : e.entity = o.entity
    · have hst : scanStep m e (q, out) o = (q, out) := by
        simp [scanStep, hent]
      have htr : trig m e o = false := by simp [trig, hent]
      have hem : emitF m e o = none := by simp [emitF, hent]
      rw [hst, ih, List.countP_cons, List.filterMap_cons, htr, hem]
      simp
    · by_cases hlt : e.time - o.time < m
      · have hst : scanStep m e (q, out) o =
            (q, out ++ [⟨e, o, e.time - o.time, e.time⟩]) := by
          simp [scanStep, hent, hlt]
        have htr : trig m e o = false := by simp [trig, hent, not_le.mpr hlt]
        have hem : emitF m e o = some ⟨e, o, e.time - o.time, e.time⟩ := by
          simp [emitF, hent, hlt]
        rw [hst, ih, List.countP_cons, List.filterMap_cons, htr, hem]
        simp
      · have hst : scanStep m e (q, out) o = (q.tail, out) := by
          simp [scanStep, hent, hlt]
        have htr : trig m e o = true := by simp [trig, hent, not_lt.mp hlt]
        have hem : emitF m e o = none := by simp [emitF, hlt]
        rw [hst, ih, List.countP_cons, List.filterMap_cons, htr, hem]
        have hdr : q.tail.drop (snap.countP (trig m e)) =
            q.drop (1 + snap.countP (trig m e)) := by
          rw [← List.drop_one, List.drop_drop]
        simp [hdr, Nat.add_comm]

lemma processEvent_eq (m : Int) (q : List Event) (out : List Cooccurrence)
    (e : Event) :
    processEvent m (q, out) e = (stepQueue m q e, out ++ q.filterMap (emitF m e)) := by
  show ((q.foldl (scanStep m e) (q, out)).1 ++ [e],
      (q.foldl (scanStep m e) (q, out)).2) = _
  rw [foldl_scanStep_eq]
  rfl

lemma foldl_processEvent_eq (m : Int) :
    ∀ (l : List Event) (q : List Event) (out : List Cooccurrence),
      l.foldl (processEvent m) (q, out) = (queueRun m q l, out ++ emitsAll m q l) := by
  intro l
  induction l with
  | nil => intro q out; simp [queueRun, emitsAll]
  | cons e l ih =>
    intro q out
    rw [List.foldl_cons, processEvent_eq, ih]
    simp [queueRun, emitsAll]

lemma foldl_over_groups {σ : Type} (f : σ → Event → σ) :
    ∀ (gs : List (Option String × List Event)) (s : σ),
      gs.foldl (fun st g => g.2.foldl f st) s = ((gs.map Prod.snd).flatten).foldl f s := by
  intro gs
  induction gs with
  | nil => intro s; rfl
  | cons g gs ih =>
    intro s
    rw [List.foldl_cons, ih, List.map_cons, List.flatten_cons, List.foldl_append]

lemma get_cooccurrences_eq_emitsAll (m : Int) (events : List Event) :
    get_cooccurrences m events = emitsAll m [] (flatEvents events) := by
  unfold get_cooccurrences flatEvents
  rw [foldl_over_groups, foldl_processEvent_eq]
  simp

/-! ### Queue facts -/

lemma suffix_append_right {α : Type} {l₁ l₂ : List α} (h : l₁ <:+ l₂) (t : List α) :
    l₁ ++ t <:+ l₂ ++ t := by
  obtain ⟨w, hw⟩ := h
  exact ⟨w, by rw [← hw, List.append_assoc]⟩

lemma stepQueue_suffix (m : Int) (q : List Event) (e : Event) :
    stepQueue m q e <:+ q ++ [e] :=
  suffix_append_right (List.drop_suffix _ _) [e]

lemma queueRun_suffix (m : Int) :
    ∀ (l q : List Event), queueRun m q l <:+ q ++ l := by
  intro l
  induction l with
  | nil => intro q; simp [queueRun]
  | cons e l ih =>
    intro q
    have h1 : queueRun m (stepQueue m q e) l <:+ stepQueue m q e ++ l := ih _
    have h2 : stepQueue m q e ++ l <:+ (q ++ [e]) ++ l :=
      suffix_append_right (stepQueue_suffix m q e) l
    have h3 := h1.trans h2
    simpa [List.append_assoc] using h3

/-! ### Emission facts -/

lemma emitsAll_append (m : Int) :
    ∀ (l₁ l₂ q : List Event),
      emitsAll m q (l₁ ++ l₂) =
        emitsAll m q l₁ ++ emitsAll m (queueRun m q l₁) l₂ := by
  intro l₁
  induction l₁ with
  | nil => intro l₂ q; simp [emitsAll, queueRun]
  | cons e l₁ ih =>
    intro l₂ q
    simp [emitsAll, queueRun, ih, List.append_assoc]

lemma mem_filterMap_emitF {m : Int} {e : Event} {q : List Event}
    {c : Cooccurrence} (hc : c ∈ q.filterMap (emitF m e)) :
    c.event = e ∧ c.other_event ∈ q ∧ c.event.entity ≠ c.other_event.entity ∧
      c.timedelta = c.event.time - c.other_event.time ∧ c.timedelta < m ∧
      c.time = c.event.time := by
  rw [List.mem_filterMap] at hc
  obtain ⟨o, ho, hfo⟩ := hc
  by_cases h : e.entity ≠ o.entity ∧ e.time - o.time < m
  · rw [emitF, if_pos h] at hfo
    obtain rfl := Option.some.inj hfo
    exact ⟨rfl, ho, h.1, rfl, h.2, rfl⟩
  · rw [emitF, if_neg h] at hfo
    exact absurd hfo (by simp)

lemma emitsAll_entity (m : Int) :
    ∀ (l q : List Event) (c : Cooccurrence), c ∈ emitsAll m q l →
      c.event.entity ≠ c.other_event.entity := by
  intro l
  induction l with
  | nil => intro q c hc; simp [emitsAll] at hc
  | cons e l ih =>
    intro q c hc
    rw [emitsAll, List.mem_append] at hc
    rcases hc with hc | hc
    · exact (mem_filterMap_emitF hc).2.2.1
    · exact ih _ _ hc

lemma emitsAll_event_mem (m : Int) :
    ∀ (l q : List Event) (c : Cooccurrence), c ∈ emitsAll m q l → c.event ∈ l := by
  intro l
  induction l with
  | nil => intro q c hc; simp [emitsAll] at hc
  | cons e l ih =>
    intro q c hc
    rw [emitsAll, List.mem_append] at hc
    rcases hc with hc | hc
    · rw [(mem_filterMap_emitF hc).1]
      exact List.mem_cons_self _ _
    · exact List.mem_cons_of_mem _ (ih _ _ hc)

lemma countP_filterMap {α β : Type} (f : α → Option β) (p : β → Bool) :
    ∀ (l : List α),
      (l.filterMap f).countP p = l.countP (fun a => ((f a).map p).getD false) := by
  intro l
  induction l with
  | nil => rfl
  | cons a l ih =>
    rw [List.filterMap_cons]
    cases hfa : f a with
    | none => rw [List.countP_cons, hfa]; simp [ih]
    | some b => rw [List.countP_cons, List.countP_cons, hfa]; simp [ih]

/-! ### No emission at all when the gap bound is not positive and the
processing order is chronological -/

lemma emitsAll_eq_nil_of_nonpos (m : Int) (hm : m ≤ 0) :
    ∀ (l q : List Event), List.Pairwise timeLE (q ++ l) → emitsAll m q l = [] := by
  intro l
  induction l with
  | nil => intro q _; rfl
  | cons e l ih =>
    intro q hp
    have hq : ∀ o ∈ q, emitF m e o = none := by
      intro o ho
      have hle : o.time ≤ e.time := by
        rw [List.pairwise_append] at hp
        exact hp.2.2 o ho e (List.mem_cons_self _ _)
      rw [emitF, if_neg]
      rintro ⟨-, hlt⟩
      omega
    have h1 : q.filterMap (emitF m e) = [] := List.filterMap_eq_nil_iff.mpr hq
    have hp' : List.Pairwise timeLE (stepQueue m q e ++ l) := by
      have hs : (stepQueue m q e ++ l).Sublist (q ++ e :: l) := by
        have hd : (q.drop (q.countP (trig m e))).Sublist q := List.drop_sublist _ _
        have h2 := hd.append_right ([e] ++ l)
        simpa [stepQueue, List.append_assoc] using h2
      exact hp.sublist hs
    rw [emitsAll, h1, ih _ hp']
    rfl

/-! ### `groupBy` facts -/

lemma addToGroups_keys {α κ : Type} [DecidableEq κ] (key : α → κ)
    (gs : List (κ × List α)) (a : α) :
    (addToGroups key gs a).map Prod.fst =
      if key a ∈ gs.map Prod.fst then gs.map Prod.fst
      else gs.map Prod.fst ++ [key a] := by
  by_cases h : key a ∈ gs.map Prod.fst
  · rw [addToGroups, if_pos h, if_pos h, List.map_map]
    refine List.map_congr_left ?_
    intro g _
    by_cases hg : g.1 = key a <;> simp [hg]
  · rw [addToGroups, if_neg h, if_neg h]
    simp

lemma addToGroups_keys_nodup {α κ : Type} [DecidableEq κ] (key : α → κ)
    {gs : List (κ × List α)} (a : α) (h : (gs.map Prod.fst).Nodup) :
    ((addToGroups key gs a).map Prod.fst).Nodup := by
  rw [addToGroups_keys]
  by_cases hm : key a ∈ gs.map Prod.fst
  · simpa [hm] using h
  · simp [hm, List.nodup_append, h]

lemma foldl_addToGroups_keys_nodup {α κ : Type} [DecidableEq κ] (key : α → κ) :
    ∀ (l : List α) (gs : List (κ × List α)), (gs.map Prod.fst).Nodup →
      ((l.foldl (addToGroups key) gs).map Prod.fst).Nodup := by
  intro l
  induction l with
  | nil => intro gs h; exact h
  | cons a l ih =>
    intro gs h
    exact ih _ (addToGroups_keys_nodup key a h)

lemma groupBy_keys_nodup {α κ : Type} [DecidableEq κ] (key : α → κ) (l : List α) :
    ((groupBy key l).map Prod.fst).Nodup :=
  foldl_addToGroups_keys_nodup key l [] (by simp)

lemma foldl_addToGroups_consistent {α κ : Type} [DecidableEq κ] (key : α → κ) :
    ∀ (l : List α) (gs : List (κ × List α)),
      (∀ g ∈ gs, ∀ a ∈ g.2, key a = g.1) →
      ∀ g ∈ l.foldl (addToGroups key) gs, ∀ a ∈ g.2, key a = g.1 := by
  intro l
  induction l with
  | nil => intro gs h; exact h
  | cons a l ih =>
    intro gs h
    refine ih _ ?_
    intro g hg b hb
    unfold addToGroups at hg
    split at hg
    · rw [List.mem_map] at hg
      obtain ⟨g₀, hg₀, rfl⟩ := hg
      by_cases hk : g₀.1 = key a
      · rw [if_pos hk] at hb ⊢
        rcases List.mem_append.mp hb with hb | hb
        · exact h g₀ hg₀ b hb
        · rw [List.mem_singleton.mp hb, hk]
      · rw [if_neg hk] at hb ⊢
        exact h g₀ hg₀ b hb
    · rcases List.mem_append.mp hg with hg | hg
      · exact h g hg b hb
      · rw [List.mem_singleton.mp hg] at hb ⊢
        rw [List.mem_singleton.mp hb]

lemma groupBy_mem_key {α κ : Type} [DecidableEq κ] (key : α → κ) (l : List α) :
    ∀ g ∈ groupBy key l, ∀ a ∈ g.2, key a = g.1 :=
  foldl_addToGroups_consistent key l [] (by simp)

lemma groupBy_eq_of_key_eq {α κ : Type} [DecidableEq κ] (key : α → κ) (l : List α)
    {g g' : κ × List α} (hg : g ∈ groupBy key l) (hg' : g' ∈ groupBy key l)
    (hk : g.1 = g'.1) : g = g' :=
  List.inj_on_of_nodup_map (groupBy_keys_nodup key l) hg hg' hk

lemma join_addToGroups_perm {α κ : Type} [DecidableEq κ] (key : α → κ) (a : α) :
    ∀ (gs : List (κ × List α)), (gs.map Prod.fst).Nodup →
      ((addToGroups key gs a).map Prod.snd).flatten.Perm
        ((gs.map Prod.snd).flatten ++ [a]) := by
  intro gs
  induction gs with
  | nil => intro _; simp [addToGroups]
  | cons g gs ih =>
    intro h
    rw [List.map_cons, List.nodup_cons] at h
    by_cases h1 : key a = g.1
    · have hcond : key a ∈ (g :: gs).map Prod.fst := by simp [h1]
      rw [addToGroups, if_pos hcond, List.map_cons]
      have hhead : (if g.1 = key a then (g.1, g.2 ++ [a]) else g) =
          (g.1, g.2 ++ [a]) := if_pos h1.symm
      have htail : gs.map (fun x => if x.1 = key a then (x.1, x.2 ++ [a]) else x) = gs := by
        have hx : ∀ x ∈ gs, (if x.1 = key a then (x.1, x.2 ++ [a]) else x) = x := by
          intro x hxm
          have hne : x.1 ≠ key a := by
            intro hc
            apply h.1
            have hxg : x.1 = g.1 := hc.trans h1
            exact hxg ▸ List.mem_map_of_mem Prod.fst hxm
          rw [if_neg hne]
        rw [List.map_congr_left hx]
        simp
      rw [hhead, htail, List.map_cons]
      simp only [List.flatten_cons]
      have hp : ([a] ++ (gs.map Prod.snd).flatten).Perm
          ((gs.map Prod.snd).flatten ++ [a]) := List.perm_append_comm
      have := hp.append_left g.2
      simpa [List.append_assoc] using this
    · by_cases h2 : key a ∈ gs.map Prod.fst
      · have hcond : key a ∈ (g :: gs).map Prod.fst := by simp [h2]
        rw [addToGroups, if_pos hcond, List.map_cons]
        have hhead : (if g.1 = key a then (g.1, g.2 ++ [a]) else g) = g :=
          if_neg (fun hc => h1 hc.symm)
        have htail : gs.map (fun x => if x.1 = key a then (x.1, x.2 ++ [a]) else x) =
            addToGroups key gs a := by rw [addToGroups, if_pos h2]
        rw [hhead, htail, List.map_cons, List.flatten_cons]
        have hperm := (ih h.2).append_left g.2
        refine hperm.trans ?_
        rw [List.map_cons, List.flatten_cons, List.append_assoc]
      · have hcond : key a ∉ (g :: gs).map Prod.fst := by
          simp only [List.map_cons, List.mem_cons]
          rintro (hc | hc)
          · exact h1 hc
          · exact h2 hc
        rw [addToGroups, if_neg hcond]
        simp [List.append_assoc]

lemma foldl_addToGroups_flatten_perm {α κ : Type} [DecidableEq κ] (key : α → κ) :
    ∀ (l : List α) (gs : List (κ × List α)), (gs.map Prod.fst).Nodup →
      ((l.foldl (addToGroups key) gs).map Prod.snd).flatten.Perm
        ((gs.map Prod.snd).flatten ++ l) := by
  intro l
  induction l with
  | nil => intro gs _; simp
  | cons a l ih =>
    intro gs h
    rw [List.foldl_cons]
    have h1 := ih (addToGroups key gs a) (addToGroups_keys_nodup key a h)
    refine h1.trans ?_
    have h2 := (join_addToGroups_perm key a gs h).append_right l
    refine h2.trans ?_
    rw [List.append_assoc, List.singleton_append]

lemma groupBy_flatten_perm {α κ : Type} [DecidableEq κ] (key : α → κ) (l : List α) :
    (((groupBy key l).map Prod.snd).flatten).Perm l := by
  have h := foldl_addToGroups_flatten_perm key l [] (by simp)
  simpa [groupBy] using h

lemma flatEvents_perm (events : List Event) : (flatEvents events).Perm events := by
  simpa [flatEvents, groupByLocation] using groupBy_flatten_perm Event.location events

/-! ### `sortBy` permutes its input -/

lemma insertSorted_perm {α : Type} (le : α → α → Bool) (a : α) :
    ∀ l, (insertSorted le a l).Perm (a :: l) := by
  intro l
  induction l with
  | nil => simp [insertSorted]
  | cons b l ih =>
    rw [insertSorted]
    by_cases h : le a b
    · simp [h]
    · simp only [if_neg h]
      exact (ih.cons b).trans (List.Perm.swap a b l)

lemma sortBy_perm {α : Type} (le : α → α → Bool) :
    ∀ l, (sortBy le l).Perm l := by
  intro l
  induction l with
  | nil => simp [sortBy]
  | cons a l ih =>
    rw [sortBy]
    exact (insertSorted_perm le a _).trans (ih.cons a)

/-! ### `divide_cooccurrences` splits group by group -/

lemma divideStep_eq (m : Int) (s r : List Cooccurrence)
    (g : (String × String) × List Cooccurrence) :
    divideStep m (s, r) g =
      if m < spanOf g then (s ++ sortBy coocLe g.2, r)
      else (s, r ++ sortBy coocLe g.2) := rfl

lemma divide_foldl_eq (m : Int) :
    ∀ (gs : List ((String × String) × List Cooccurrence)) (s r : List Cooccurrence),
      gs.foldl (divideStep m) (s, r) = (s ++ sysPart m gs, r ++ randPart m gs) := by
  intro gs
  induction gs with
  | nil => intro s r; simp [sysPart, randPart]
  | cons g gs ih =>
    intro s r
    rw [List.foldl_cons, divideStep_eq]
    by_cases h : m < spanOf g
    · rw [if_pos h, ih]
      simp only [sysPart, randPart, if_pos h]
      rw [List.append_assoc, List.nil_append]
    · rw [if_neg h, ih]
      simp only [sysPart, randPart, if_neg h]
      rw [List.append_assoc, List.nil_append]

lemma divide_cooccurrences_eq (m : Int) (cs : List Cooccurrence) :
    divide_cooccurrences m cs =
      (sysPart m (groupBy pairKey cs), randPart m (groupBy pairKey cs)) := by
  unfold divide_cooccurrences
  rw [divide_foldl_eq]
  simp

lemma mem_sysPart {m : Int} {c : Cooccurrence} :
    ∀ {gs : List ((String × String) × List Cooccurrence)},
      c ∈ sysPart m gs ↔ ∃ g ∈ gs, m < spanOf g ∧ c ∈ g.2 := by
  intro gs
  induction gs with
  | nil => simp [sysPart]
  | cons g gs ih =>
    simp only [sysPart]
    rw [List.mem_append, ih]
    constructor
    · rintro (hc | ⟨g', hg', hs, hc⟩)
      · by_cases h : m < spanOf g
        · rw [if_pos h] at hc
          exact ⟨g, List.mem_cons_self g gs, h,
            (sortBy_perm coocLe g.2).mem_iff.mp hc⟩
        · rw [if_neg h] at hc
          exact absurd hc (List.not_mem_nil c)
      · exact ⟨g', List.mem_cons_of_mem g hg', hs, hc⟩
    · rintro ⟨g', hg', hs, hc⟩
      rcases List.mem_cons.mp hg' with rfl | hg'
      · left
        rw [if_pos hs]
        exact (sortBy_perm coocLe g'.2).mem_iff.mpr hc
      · exact Or.inr ⟨g', hg', hs, hc⟩

lemma mem_randPart {m : Int} {c : Cooccurrence} :
    ∀ {gs : List ((String × String) × List Cooccurrence)},
      c ∈ randPart m gs ↔ ∃ g ∈ gs, ¬ m < spanOf g ∧ c ∈ g.2 := by
  intro gs
  induction gs with
  | nil => simp [randPart]
  | cons g gs ih =>
    simp only [randPart]
    rw [List.mem_append, ih]
    constructor
    · rintro (hc | ⟨g', hg', hs, hc⟩)
      · by_cases h : m < spanOf g
        · rw [if_pos h] at hc
          exact absurd hc (List.not_mem_nil c)
        · rw [if_neg h] at hc
          exact ⟨g, List.mem_cons_self g gs, h,
            (sortBy_perm coocLe g.2).mem_iff.mp hc⟩
      · exact ⟨g', List.mem_cons_of_mem g hg', hs, hc⟩
    · rintro ⟨g', hg', hs, hc⟩
      rcases List.mem_cons.mp hg' with rfl | hg'
      · left
        rw [if_neg hs]
        exact (sortBy_perm coocLe g'.2).mem_iff.mpr hc
      · exact Or.inr ⟨g', hg', hs, hc⟩

lemma sysPart_append_randPart_perm (m : Int) :
    ∀ (gs : List ((String × String) × List Cooccurrence)),
      (sysPart m gs ++ randPart m gs).Perm ((gs.map Prod.snd).flatten) := by
  intro gs
  induction gs with
  | nil => simp [sysPart, randPart]
  | cons g gs ih =>
    have hsort : (sortBy coocLe g.2 ++ (sysPart m gs ++ randPart m gs)).Perm
        (g.2 ++ (gs.map Prod.snd).flatten) :=
      ((ih.append_left _).trans ((sortBy_perm coocLe g.2).append_right _))
    by_cases h : m < spanOf g
    · rw [List.map_cons, List.flatten_cons]
      simp only [sysPart, randPart, if_pos h]
      refine List.Perm.trans ?_ hsort
      rw [List.nil_append, List.append_assoc]
    · rw [List.map_cons, List.flatten_cons]
      simp only [sysPart, randPart, if_neg h]
      refine List.Perm.trans ?_ hsort
      rw [List.nil_append, ← List.append_assoc]
      exact (List.perm_append_comm.append_right _).trans
        (by rw [List.append_assoc])

/-! ### Counting emitted records -/

lemma countP_emitsAll_zero {m : Int} {x : Event} (p : Cooccurrence → Bool)
    (hp : ∀ c, p c = true → c.event = x) :
    ∀ (l q : List Event), x ∉ l → (emitsAll m q l).countP p = 0 := by
  intro l q hx
  rw [List.countP_eq_zero]
  intro c hc hpc
  exact hx ((hp c hpc) ▸ emitsAll_event_mem m l q c hc)

lemma countP_filterMap_zero_of_event {m : Int} {e x : Event} {q : List Event}
    (p : Cooccurrence → Bool) (hp : ∀ c, p c = true → c.event = x) (hne : e ≠ x) :
    (q.filterMap (emitF m e)).countP p = 0 := by
  rw [List.countP_eq_zero]
  intro c hc hpc
  exact hne ((mem_filterMap_emitF hc).1.symm.trans (hp c hpc))

lemma countP_filterMap_zero_of_other {m : Int} {e x : Event} {q : List Event}
    (p : Cooccurrence → Bool) (hp : ∀ c, p c = true → c.other_event = x)
    (hx : x ∉ q) :
    (q.filterMap (emitF m e)).countP p = 0 := by
  rw [List.countP_eq_zero]
  intro c hc hpc
  exact hx ((hp c hpc) ▸ (mem_filterMap_emitF hc).2.1)

lemma countP_filterMap_emit_pair {m : Int} {e₂ e₁ : Event} {q : List Event}
    (hent : e₂.entity ≠ e₁.entity) (hlt : e₂.time - e₁.time < m)
    (hq : q.Nodup) (hmem : e₁ ∈ q) :
    (q.filterMap (emitF m e₂)).countP
      (fun c => c.event == e₂ && c.other_event == e₁) = 1 := by
  rw [countP_filterMap]
  have hpt : ∀ o : Event,
      ((emitF m e₂ o).map
        (fun c => c.event == e₂ && c.other_event == e₁)).getD false = (o == e₁) := by
    intro o
    by_cases ho : o = e₁
    · subst ho
      rw [emitF, if_pos ⟨hent, hlt⟩]
      simp
    · rw [emitF]
      by_cases h : e₂.entity ≠ o.entity ∧ e₂.time - o.time < m
      · rw [if_pos h]
        simp [ho]
      · rw [if_neg h]
        simp [ho]
  rw [List.countP_congr (fun o _ => by rw [hpt o])]
  have hc : List.countP (fun o => o == e₁) q = q.count e₁ := rfl
  rw [hc]
  exact List.count_eq_one_of_mem hq hmem

/-! ### The earlier event survives in the queue until the later one arrives -/

lemma queue_keeps (m : Int) (e₁ e₂ : Event) (hm : e₂.time - e₁.time < m) :
    ∀ (l : List Event), (∀ x ∈ l, e₁.time ≤ x.time ∧ x.time ≤ e₂.time) →
      ∀ (b a : List Event), (∀ x ∈ a, e₁.time ≤ x.time) →
        ∃ b' a', queueRun m (b ++ e₁ :: a) l = b' ++ e₁ :: a' ∧
          (∀ x ∈ a', e₁.time ≤ x.time) := by
  intro l
  induction l with
  | nil => intro _ b a ha; exact ⟨b, a, rfl, ha⟩
  | cons e' l ih =>
    intro hl b a ha
    obtain ⟨he1, he2⟩ := hl e' (List.mem_cons_self _ _)
    have hstep : stepQueue m (b ++ e₁ :: a) e' =
        (b.drop ((b ++ e₁ :: a).countP (trig m e'))) ++ e₁ :: (a ++ [e']) := by
      have hcnt : (e₁ :: a).countP (trig m e') = 0 := by
        rw [List.countP_eq_zero]
        intro x hx
        have hx1 : e₁.time ≤ x.time := by
          rcases List.mem_cons.mp hx with rfl | hx
          · exact le_refl _
          · exact ha x hx
        simp only [trig, Bool.and_eq_true, decide_eq_true_eq, not_and]
        intro _
        omega
      have hle : (b ++ e₁ :: a).countP (trig m e') ≤ b.length := by
        rw [List.countP_append, hcnt, Nat.add_zero]
        exact List.countP_le_length _
      rw [stepQueue, List.drop_append_eq_append_drop,
        Nat.sub_eq_zero_of_le hle, List.drop_zero]
      simp [List.append_assoc]
    rw [queueRun, hstep]
    refine ih (fun x hx => hl x (List.mem_cons_of_mem _ hx)) _ (a ++ [e']) ?_
    intro x hx
    rcases List.mem_append.mp hx with hx | hx
    · exact ha x hx
    · rw [List.mem_singleton.mp hx]
      exact he1

/-! ### `create_graph` never touches `final_date` after construction -/

lemma addNode_final_date (g : Graph) (u : String) (t : Int) :
    (g.addNode u t).final_date = g.final_date := by
  unfold Graph.addNode
  split <;> rfl

lemma add_edge_final_date (g : Graph) (u v : String) :
    (add_edge g u v).final_date = g.final_date := by
  unfold add_edge
  split <;> rfl

lemma graphStep_final_date (g : Graph) (c : Cooccurrence) :
    (graphStep g c).final_date = g.final_date := by
  rw [graphStep, add_edge_final_date, addNode_final_date, addNode_final_date]

lemma foldl_graphStep_final_date :
    ∀ (cs : List Cooccurrence) (g : Graph),
      (cs.foldl graphStep g).final_date = g.final_date := by
  intro cs
  induction cs with
  | nil => intro g; rfl
  | cons c cs ih =>
    intro g
    rw [List.foldl_cons, ih, graphStep_final_date]

/-! ### Claim theorems -/

/-- Claim C1 (code bug): the spec and the detector docstring require every
emitted co-occurrence to pair events of the same location group, but the
queue is created once, outside the per-location loop, so the window leaks
across groups: on this input the only emitted record pairs an event at
location `L1` with an event at location `L2`. -/
theorem C1_cross_location_emission :
    get_cooccurrences 10 [⟨0, "A", 0, some "L1"⟩, ⟨1, "B", 1, some "L2"⟩] =
      [⟨⟨1, "B", 1, some "L2"⟩, ⟨0, "A", 0, some "L1"⟩, 1, 1⟩] ∧
    (⟨0, "A", 0, some "L1"⟩ : Event).location ≠
      (⟨1, "B", 1, some "L2"⟩ : Event).location :=
  ⟨by decide, by decide⟩

/-- Claim C2 (code bug): on an input that is chronological within each
location group (both groups here are singletons), the shared queue makes the
detector compare a later-processed, earlier-in-time event against an event
of another group, emitting `timedelta = -10`, which violates
`0 ≤ timedelta < maxGap`. -/
theorem C2_negative_timedelta :
    get_cooccurrences 5 [⟨0, "A", 10, some "L1"⟩, ⟨1, "B", 0, some "L2"⟩] =
      [⟨⟨1, "B", 0, some "L2"⟩, ⟨0, "A", 10, some "L1"⟩, -10, 0⟩] ∧
    (-10 : Int) < 0 :=
  ⟨by decide, by decide⟩

/-- Claim C4 counterexample: two co-occurrences of the same entity pair
`{A, B}` whose `event.Index` order is opposite to their time order.  The
group's maximum time minus its minimum time is `10 > 5 = minSpan`, so the
claim requires both records in `systematic`; but the sort is by tuple order
(primary key `event.Index`), the computed span is `0 - 10 = -10`, and the
code puts both records in `random` — `systematic` is empty. -/
theorem C4_counterexample :
    (divide_cooccurrences 5
      [⟨⟨1, "A", 10, some "L"⟩, ⟨2, "B", 10, some "L"⟩, 0, 10⟩,
       ⟨⟨5, "A", 0, some "L"⟩, ⟨6, "B", 0, some "L"⟩, 0, 0⟩]).1 = [] ∧
    (⟨⟨1, "A", 10, some "L"⟩, ⟨2, "B", 10, some "L"⟩, 0, 10⟩ : Cooccurrence).time -
      (⟨⟨5, "A", 0, some "L"⟩, ⟨6, "B", 0, some "L"⟩, 0, 0⟩ : Cooccurrence).time = 10 ∧
    (5 : Int) < 10 :=
  ⟨by decide, by decide, by decide⟩

/-- Claim C4 (amended): `divide_cooccurrences` groups records by unordered
entity pair, sorts each group by the record's tuple order (primary key
`event.Index`, not time), and computes `span` as the sorted group's last
`time` minus its first `time` — which need not equal max time minus min
time.  All of a group's records go to `systematic` exactly when
`span > minSpan`, otherwise all go to `random`: no pair's records are split
across both outputs. -/
theorem C4_no_split (m : Int) (cs : List Cooccurrence)
    (g : (String × String) × List Cooccurrence) (hg : g ∈ groupBy pairKey cs)
    (c : Cooccurrence) (hc : c ∈ g.2) :
    (m < spanOf g → c ∈ (divide_cooccurrences m cs).1 ∧
      c ∉ (divide_cooccurrences m cs).2) ∧
    (¬ m < spanOf g → c ∈ (divide_cooccurrences m cs).2 ∧
      c ∉ (divide_cooccurrences m cs).1) := by
  rw [divide_cooccurrences_eq]
  constructor
  · intro h
    refine ⟨mem_sysPart.mpr ⟨g, hg, h, hc⟩, ?_⟩
    intro hmem
    obtain ⟨g', hg', hs', hc'⟩ := mem_randPart.mp hmem
    have hk : g'.1 = g.1 := by
      rw [← groupBy_mem_key pairKey cs g' hg' c hc',
        ← groupBy_mem_key pairKey cs g hg c hc]
    have heq : g' = g := groupBy_eq_of_key_eq pairKey cs hg' hg hk
    exact hs' (heq ▸ h)
  · intro h
    refine ⟨mem_randPart.mpr ⟨g, hg, h, hc⟩, ?_⟩
    intro hmem
    obtain ⟨g', hg', hs', hc'⟩ := mem_sysPart.mp hmem
    have hk : g'.1 = g.1 := by
      rw [← groupBy_mem_key pairKey cs g' hg' c hc',
        ← groupBy_mem_key pairKey cs g hg c hc]
    have heq : g' = g := groupBy_eq_of_key_eq pairKey cs hg' hg hk
    exact h (heq ▸ hs')

/-- Witness for C4 at the counterexample input: the pair group is in the
grouping, its computed span `-10` is not above `5`, and the theorem places
the record in `random`. -/
theorem C4_no_split_witness :
    ((("A", "B"),
        [(⟨⟨1, "A", 10, some "L"⟩, ⟨2, "B", 10, some "L"⟩, 0, 10⟩ : Cooccurrence),
         ⟨⟨5, "A", 0, some "L"⟩, ⟨6, "B", 0, some "L"⟩, 0, 0⟩]) ∈
      groupBy pairKey
        [⟨⟨1, "A", 10, some "L"⟩, ⟨2, "B", 10, some "L"⟩, 0, 10⟩,
         ⟨⟨5, "A", 0, some "L"⟩, ⟨6, "B", 0, some "L"⟩, 0, 0⟩]) ∧
    ¬ (5 : Int) < spanOf (("A", "B"),
        [⟨⟨1, "A", 10, some "L"⟩, ⟨2, "B", 10, some "L"⟩, 0, 10⟩,
         ⟨⟨5, "A", 0, some "L"⟩, ⟨6, "B", 0, some "L"⟩, 0, 0⟩]) ∧
    (⟨⟨1, "A", 10, some "L"⟩, ⟨2, "B", 10, some "L"⟩, 0, 10⟩ : Cooccurrence) ∈
      (divide_cooccurrences 5
        [⟨⟨1, "A", 10, some "L"⟩, ⟨2, "B", 10, some "L"⟩, 0, 10⟩,
         ⟨⟨5, "A", 0, some "L"⟩, ⟨6, "B", 0, some "L"⟩, 0, 0⟩]).2 :=
  ⟨by decide, by decide,
    ((C4_no_split 5
        [⟨⟨1, "A", 10, some "L"⟩, ⟨2, "B", 10, some "L"⟩, 0, 10⟩,
         ⟨⟨5, "A", 0, some "L"⟩, ⟨6, "B", 0, some "L"⟩, 0, 0⟩]
        (("A", "B"),
          [⟨⟨1, "A", 10, some "L"⟩, ⟨2, "B", 10, some "L"⟩, 0, 10⟩,
           ⟨⟨5, "A", 0, some "L"⟩, ⟨6, "B", 0, some "L"⟩, 0, 0⟩])
        (by decide)
        ⟨⟨1, "A", 10, some "L"⟩, ⟨2, "B", 10, some "L"⟩, 0, 10⟩
        (by decide)).2 (by decide)).1⟩

/-- Claim C5 counterexample: with `maxGap = 0` and an input that is *not*
chronological, the negative timedelta `-5` passes the strict `< 0` test and
a record is emitted, so the output is not empty for every input list. -/
theorem C5_counterexample :
    get_cooccurrences 0 [⟨0, "A", 10, some "L"⟩, ⟨1, "B", 5, some "L"⟩] =
      [⟨⟨1, "B", 5, some "L"⟩, ⟨0, "A", 10, some "L"⟩, -5, 5⟩] := by decide

/-- Claim C5 (amended): when the flattened location-group processing order
is chronological (in particular, any single-location chronological input),
`maxGap = 0` yields no co-occurrences: the strict `<` comparison excludes
every pair. -/
theorem C5_zero_max_gap (events : List Event) (h : ChronFlat events) :
    get_cooccurrences 0 events = [] := by
  rw [get_cooccurrences_eq_emitsAll]
  refine emitsAll_eq_nil_of_nonpos 0 le_rfl (flatEvents events) [] ?_
  simpa using h

/-- Witness for C5 on a chronological single-location input. -/
theorem C5_zero_max_gap_witness :
    ChronFlat [⟨0, "A", 0, some "L"⟩, ⟨1, "B", 5, some "L"⟩] ∧
    get_cooccurrences 0 [⟨0, "A", 0, some "L"⟩, ⟨1, "B", 5, some "L"⟩] = [] := by
  have h : ChronFlat [⟨0, "A", 0, some "L"⟩, ⟨1, "B", 5, some "L"⟩] := by
    unfold ChronFlat
    decide
  exact ⟨h, C5_zero_max_gap _ h⟩

/-- Claim C6: every emitted co-occurrence pairs two different entities —
the `event.entity != other_event.entity` guard precedes every emission. -/
theorem C6_no_self_pairing (m : Int) (events : List Event) (c : Cooccurrence)
    (hc : c ∈ get_cooccurrences m events) :
    c.event.entity ≠ c.other_event.entity := by
  rw [get_cooccurrences_eq_emitsAll] at hc
  exact emitsAll_entity m _ _ c hc

/-- Witness for C6 at a concrete input with a nonempty output. -/
theorem C6_no_self_pairing_witness :
    (⟨⟨1, "B", 1, some "L"⟩, ⟨0, "A", 0, some "L"⟩, 1, 1⟩ : Cooccurrence) ∈
      get_cooccurrences 10 [⟨0, "A", 0, some "L"⟩, ⟨1, "B", 1, some "L"⟩] ∧
    (⟨⟨1, "B", 1, some "L"⟩, ⟨0, "A", 0, some "L"⟩, 1, 1⟩ :
      Cooccurrence).event.entity ≠
      (⟨⟨1, "B", 1, some "L"⟩, ⟨0, "A", 0, some "L"⟩, 1, 1⟩ :
        Cooccurrence).other_event.entity :=
  ⟨by decide,
    C6_no_self_pairing 10 [⟨0, "A", 0, some "L"⟩, ⟨1, "B", 1, some "L"⟩]
      ⟨⟨1, "B", 1, some "L"⟩, ⟨0, "A", 0, some "L"⟩, 1, 1⟩ (by decide)⟩

/-- Claim C7: `divide_cooccurrences` partitions its input: the two outputs
together are a permutation of the input, their lengths sum to the input
length, every record occurs in the outputs exactly as often as in the input,
and the empty input yields two empty lists. -/
theorem C7_partition (m : Int) (cs : List Cooccurrence) :
    ((divide_cooccurrences m cs).1 ++ (divide_cooccurrences m cs).2).Perm cs ∧
    (divide_cooccurrences m cs).1.length + (divide_cooccurrences m cs).2.length =
      cs.length ∧
    (∀ c, (divide_cooccurrences m cs).1.count c +
      (divide_cooccurrences m cs).2.count c = cs.count c) ∧
    divide_cooccurrences m ([] : List Cooccurrence) = ([], []) := by
  have hperm : ((divide_cooccurrences m cs).1 ++ (divide_cooccurrences m cs).2).Perm cs := by
    rw [divide_cooccurrences_eq]
    exact (sysPart_append_randPart_perm m _).trans (groupBy_flatten_perm pairKey cs)
  refine ⟨hperm, ?_, ?_, rfl⟩
  · have h := hperm.length_eq
    simpa [List.length_append] using h
  · intro c
    have h := hperm.count_eq c
    simpa [List.count_append] using h

/-- Claim C8: `create_graph` fails ("EmptyInput": the `cooccurrences[-1]`
IndexError) on an empty list, and on any non-empty list succeeds with the
graph-level `finalDate` equal to the time of the *last* input record. -/
theorem C8_empty_input_and_final_date (cs : List Cooccurrence) :
    (cs = [] → create_graph cs = .error .EmptyInput) ∧
    (∀ c : Cooccurrence, cs.getLast? = some c →
      ∃ g : Graph, create_graph cs = .ok g ∧ g.finalDate = some c.time) := by
  constructor
  · rintro rfl
    rfl
  · intro c hc
    unfold create_graph
    rw [hc]
    exact ⟨_, rfl, rfl⟩

/-- Witness for C8: the empty input errors; a two-record input yields
`finalDate` equal to the second record's time. -/
theorem C8_empty_input_and_final_date_witness :
    create_graph [] = .error .EmptyInput ∧
    ∃ g : Graph,
      create_graph
        [⟨⟨0, "A", 3, some "L"⟩, ⟨1, "B", 3, some "L"⟩, 0, 3⟩,
         ⟨⟨2, "A", 7, some "L"⟩, ⟨3, "B", 7, some "L"⟩, 0, 7⟩] = .ok g ∧
      g.finalDate = some 7 :=
  ⟨(C8_empty_input_and_final_date []).1 rfl,
    (C8_empty_input_and_final_date _).2
      ⟨⟨2, "A", 7, some "L"⟩, ⟨3, "B", 7, some "L"⟩, 0, 7⟩ (by decide)⟩

/-- Claim C10: for any non-empty input, the built graph carries both
graph-level keys: `finalDate` set to the last record's time, and the
construction-time key `final_date`, which remains `None` forever — a
consumer reading `final_date` never observes the final date. -/
theorem C10_two_final_date_keys (cs : List Cooccurrence) (c : Cooccurrence)
    (h : cs.getLast? = some c) :
    ∃ g : Graph, create_graph cs = .ok g ∧ g.finalDate = some c.time ∧
      g.final_date = none := by
  refine ⟨{ cs.foldl graphStep ⟨[], [], none, none⟩ with finalDate := some c.time },
    ?_, rfl, ?_⟩
  · unfold create_graph
    rw [h]
  · show (cs.foldl graphStep ⟨[], [], none, none⟩).final_date = none
    rw [foldl_graphStep_final_date]

/-- Witness for C10. -/
theorem C10_two_final_date_keys_witness :
    ∃ g : Graph,
      create_graph [⟨⟨0, "A", 3, some "L"⟩, ⟨1, "B", 3, some "L"⟩, 0, 3⟩] = .ok g ∧
      g.finalDate = some 3 ∧ g.final_date = none :=
  C10_two_final_date_keys _ ⟨⟨0, "A", 3, some "L"⟩, ⟨1, "B", 3, some "L"⟩, 0, 3⟩
    (by decide)

/-- Claim C9 counterexample: `get_cooccurrences` performs no validation of
`maxGap`: called with the negative gap `-1` it does not fail — it returns
normally (here, the empty list). -/
theorem C9_counterexample :
    get_cooccurrences (-1) [⟨0, "A", 0, some "L"⟩, ⟨1, "B", 1, some "L"⟩] = [] := by
  decide

/-- Claim C9 (amended): the detector has no `InvalidConfiguration` failure
path; a negative `maxGap` is accepted, and on chronologically ordered
(flattened) inputs the scan simply emits nothing, because
`timedelta < maxGap < 0` never holds for the non-negative timedeltas. -/
theorem C9_negative_max_gap_no_failure (m : Int) (hm : m < 0)
    (events : List Event) (h : ChronFlat events) :
    get_cooccurrences m events = [] := by
  rw [get_cooccurrences_eq_emitsAll]
  refine emitsAll_eq_nil_of_nonpos m (le_of_lt hm) (flatEvents events) [] ?_
  simpa using h

/-- Witness for C9. -/
theorem C9_negative_max_gap_no_failure_witness :
    (-1 : Int) < 0 ∧
    ChronFlat [⟨0, "A", 0, some "L"⟩, ⟨1, "B", 1, some "L"⟩] ∧
    get_cooccurrences (-1) [⟨0, "A", 0, some "L"⟩, ⟨1, "B", 1, some "L"⟩] = [] := by
  have h : ChronFlat [⟨0, "A", 0, some "L"⟩, ⟨1, "B", 1, some "L"⟩] := by
    unfold ChronFlat
    decide
  exact ⟨by decide, h, C9_negative_max_gap_no_failure (-1) (by decide) _ h⟩

/-- Claim C3: on an input that is chronological within each location group,
whose events carry distinct `Index` values (the data model's uniqueness
invariant), and for a positive `maxGap`: any two events of the same location
group, from different entities and strictly closer in time than `maxGap`,
are paired by exactly one emitted co-occurrence — detected with the event
that is later in scan order as `event` — and never in the other
orientation: no qualifying pair is missed and none is emitted twice. -/
theorem C3_exactly_one_pairing
    (max_timedelta : Int) (events : List Event)
    (hpos : 0 < max_timedelta)
    (hidx : (events.map Event.Index).Nodup)
    (hchron : ∀ g ∈ groupByLocation events, List.Pairwise timeLE g.2)
    (g : Option String × List Event) (hg : g ∈ groupByLocation events)
    (l₁ l₂ l₃ : List Event) (e₁ e₂ : Event)
    (hsplit : g.2 = l₁ ++ e₁ :: (l₂ ++ e₂ :: l₃))
    (hent : e₁.entity ≠ e₂.entity)
    (hgap : |e₁.time - e₂.time| < max_timedelta) :
    (get_cooccurrences max_timedelta events).countP
        (fun c => c.event == e₂ && c.other_event == e₁) = 1 ∧
    (get_cooccurrences max_timedelta events).countP
        (fun c => c.event == e₁ && c.other_event == e₂) = 0 := by
  obtain ⟨G₁, G₂, hG⟩ := List.append_of_mem hg
  obtain ⟨P, hPdef⟩ : ∃ P : List Event, P = (G₁.map Prod.snd).flatten ++ l₁ :=
    ⟨_, rfl⟩
  obtain ⟨R, hRdef⟩ : ∃ R : List Event, R = l₃ ++ (G₂.map Prod.snd).flatten :=
    ⟨_, rfl⟩
  have hflat : flatEvents events = P ++ e₁ :: (l₂ ++ e₂ :: R) := by
    rw [hPdef, hRdef]
    unfold flatEvents
    rw [hG, List.map_append, List.map_cons, List.flatten_append,
      List.flatten_cons, hsplit]
    simp [List.append_assoc]
  -- distinctness of the flattened order
  have hNodupFlat : (flatEvents events).Nodup :=
    (flatEvents_perm events).symm.nodup (List.Nodup.of_map Event.Index hidx)
  rw [hflat] at hNodupFlat
  have hN := hNodupFlat
  rw [List.nodup_append, List.nodup_cons] at hN
  obtain ⟨hNP, ⟨he₁notin, hNrest⟩, hdisj⟩ := hN
  have hN2 := hNrest
  rw [List.nodup_append, List.nodup_cons] at hN2
  obtain ⟨hNl₂, ⟨he₂R, hNR⟩, hdisj₂⟩ := hN2
  have he₂P : e₂ ∉ P := fun h =>
    hdisj h (List.mem_cons_of_mem _
      (List.mem_append_right _ (List.mem_cons_self _ _)))
  have he₁P : e₁ ∉ P := fun h => hdisj h (List.mem_cons_self _ _)
  have he₂l₂ : e₂ ∉ l₂ := fun h => hdisj₂ h (List.mem_cons_self _ _)
  have hne₂₁ : e₂ ≠ e₁ := fun h =>
    he₁notin (h ▸ List.mem_append_right _ (List.mem_cons_self _ _))
  have hne₁₂ : e₁ ≠ e₂ := fun h => hne₂₁ h.symm
  have he₁l₂ : e₁ ∉ l₂ := fun h => he₁notin (List.mem_append_left _ h)
  have he₁R : e₁ ∉ R := fun h =>
    he₁notin (List.mem_append_right _ (List.mem_cons_of_mem _ h))
  -- chronology inside the group
  have hchg := hchron g hg
  rw [hsplit, List.pairwise_append] at hchg
  obtain ⟨-, hch2, -⟩ := hchg
  rw [List.pairwise_cons] at hch2
  obtain ⟨he₁le, hch3⟩ := hch2
  rw [List.pairwise_append] at hch3
  obtain ⟨-, -, hl₂le⟩ := hch3
  have hgapLt : e₂.time - e₁.time < max_timedelta := by
    have habs := le_abs_self (e₂.time - e₁.time)
    rw [abs_sub_comm] at habs
    exact lt_of_le_of_lt habs hgap
  have hl₂bound : ∀ x ∈ l₂, e₁.time ≤ x.time ∧ x.time ≤ e₂.time := by
    intro x hx
    exact ⟨he₁le x (List.mem_append_left _ hx),
      hl₂le x hx e₂ (List.mem_cons_self _ _)⟩
  -- the queue states of the scan
  obtain ⟨q₀, hq₀def⟩ : ∃ q : List Event, q = queueRun max_timedelta [] P :=
    ⟨_, rfl⟩
  obtain ⟨q₁, hq₁def⟩ : ∃ q : List Event, q = stepQueue max_timedelta q₀ e₁ :=
    ⟨_, rfl⟩
  obtain ⟨q₂, hq₂def⟩ : ∃ q : List Event, q = queueRun max_timedelta q₁ l₂ :=
    ⟨_, rfl⟩
  have hout : get_cooccurrences max_timedelta events =
      emitsAll max_timedelta [] P ++
      (q₀.filterMap (emitF max_timedelta e₁) ++
        (emitsAll max_timedelta q₁ l₂ ++
          (q₂.filterMap (emitF max_timedelta e₂) ++
            emitsAll max_timedelta (stepQueue max_timedelta q₂ e₂) R))) := by
    rw [get_cooccurrences_eq_emitsAll, hflat, emitsAll_append, ← hq₀def,
      emitsAll, ← hq₁def, emitsAll_append, ← hq₂def, emitsAll]
  have hq₀suffix : q₀ <:+ P := by
    have h := queueRun_suffix max_timedelta P []
    rw [hq₀def]
    simpa using h
  have hq₁shape : q₁ =
      (q₀.drop (q₀.countP (trig max_timedelta e₁))) ++ e₁ :: [] := by
    rw [hq₁def, stepQueue]
  obtain ⟨b', a', hq₂shape, -⟩ :=
    queue_keeps max_timedelta e₁ e₂ hgapLt l₂ hl₂bound
      (q₀.drop (q₀.countP (trig max_timedelta e₁))) []
      (fun x hx => absurd hx (List.not_mem_nil x))
  have hq₂eq : q₂ = b' ++ e₁ :: a' := by
    rw [hq₂def, hq₁shape]
    exact hq₂shape
  have he₁q₂ : e₁ ∈ q₂ := by
    rw [hq₂eq]
    exact List.mem_append_right _ (List.mem_cons_self _ _)
  have hq₂suffix : q₂ <:+ P ++ e₁ :: l₂ := by
    have h1 : q₂ <:+ q₁ ++ l₂ := by
      rw [hq₂def]
      exact queueRun_suffix _ _ _
    have h2 : q₁ ++ l₂ <:+ (q₀ ++ [e₁]) ++ l₂ :=
      suffix_append_right (by rw [hq₁def]; exact stepQueue_suffix _ _ _) l₂
    have h3 : (q₀ ++ [e₁]) ++ l₂ <:+ (P ++ [e₁]) ++ l₂ :=
      suffix_append_right (suffix_append_right hq₀suffix [e₁]) l₂
    have h4 := (h1.trans h2).trans h3
    simpa [List.append_assoc] using h4
  have hq₂nodup : q₂.Nodup := by
    have hpre : (P ++ e₁ :: l₂) <+: (P ++ e₁ :: (l₂ ++ e₂ :: R)) :=
      ⟨e₂ :: R, by simp [List.append_assoc]⟩
    exact List.Nodup.sublist (hq₂suffix.sublist.trans hpre.sublist) hNodupFlat
  have he₂q₀ : e₂ ∉ q₀ := fun h => he₂P (hq₀suffix.sublist.subset h)
  -- the two predicates
  have hpEv : ∀ c : Cooccurrence,
      (c.event == e₂ && c.other_event == e₁) = true → c.event = e₂ := by
    intro c h
    rw [Bool.and_eq_true, beq_iff_eq, beq_iff_eq] at h
    exact h.1
  have hpEv' : ∀ c : Cooccurrence,
      (c.event == e₁ && c.other_event == e₂) = true → c.event = e₁ := by
    intro c h
    rw [Bool.and_eq_true, beq_iff_eq, beq_iff_eq] at h
    exact h.1
  have hpOth' : ∀ c : Cooccurrence,
      (c.event == e₁ && c.other_event == e₂) = true → c.other_event = e₂ := by
    intro c h
    rw [Bool.and_eq_true, beq_iff_eq, beq_iff_eq] at h
    exact h.2
  constructor
  · rw [hout, List.countP_append, List.countP_append, List.countP_append,
      List.countP_append,
      countP_emitsAll_zero _ hpEv P [] he₂P,
      countP_filterMap_zero_of_event _ hpEv hne₁₂,
      countP_emitsAll_zero _ hpEv l₂ q₁ he₂l₂,
      countP_filterMap_emit_pair (Ne.symm hent) hgapLt hq₂nodup he₁q₂,
      countP_emitsAll_zero _ hpEv R _ he₂R]
  · rw [hout, List.countP_append, List.countP_append, List.countP_append,
      List.countP_append,
      countP_emitsAll_zero _ hpEv' P [] he₁P,
      countP_filterMap_zero_of_other _ hpOth' he₂q₀,
      countP_emitsAll_zero _ hpEv' l₂ q₁ he₁l₂,
      countP_filterMap_zero_of_event _ hpEv' hne₂₁,
      countP_emitsAll_zero _ hpEv' R _ he₁R]

/-- Witness for C3 at a concrete two-event, one-location input. -/
theorem C3_exactly_one_pairing_witness :
    (0 : Int) < 5 ∧
    (([⟨0, "A", 0, some "L"⟩, ⟨1, "B", 1, some "L"⟩] : List Event).map
      Event.Index).Nodup ∧
    ((some "L", [(⟨0, "A", 0, some "L"⟩ : Event), ⟨1, "B", 1, some "L"⟩]) ∈
      groupByLocation [⟨0, "A", 0, some "L"⟩, ⟨1, "B", 1, some "L"⟩]) ∧
    (get_cooccurrences 5 [⟨0, "A", 0, some "L"⟩, ⟨1, "B", 1, some "L"⟩]).countP
        (fun c => c.event == (⟨1, "B", 1, some "L"⟩ : Event) &&
          c.other_event == (⟨0, "A", 0, some "L"⟩ : Event)) = 1 := by
  refine ⟨by decide, by decide, by decide, ?_⟩
  exact (C3_exactly_one_pairing 5
    [⟨0, "A", 0, some "L"⟩, ⟨1, "B", 1, some "L"⟩]
    (by decide) (by decide)
    (by decide)
    (some "L", [⟨0, "A", 0, some "L"⟩, ⟨1, "B", 1, some "L"⟩])
    (by decide)
    [] [] [] ⟨0, "A", 0, some "L"⟩ ⟨1, "B", 1, some "L"⟩
    rfl (by decide) (by decide)).1
